import Mathlib

/-!
Shallow embedding of the S32K1xx program-flash (FTFC) driver
`arch/arm/src/s32k1xx/s32k1xx_progmem.c`.

The hardware access port (`getreg8`/`putreg8`) is modelled by an oracle: a
list of byte values that successive reads of the FSTAT status register
return, together with an explicit trace of the register reads and writes the
driver performs.  A busy-wait loop that never sees the completion flag
corresponds to exhausting the oracle, in which case the operation denotes
`none` (divergence).
-/

namespace Progmem

/-- FTFC flash-controller register addresses.  Modelled from the spec: the
register header of the repository is not among the translated sources; the
values fix the standard, pairwise distinct identities of the status register
and the command register block (FCCOB0..FCCOB7 live at offsets 7,6,5,4,b,a,9,8
from the peripheral base, the payload slots start at offset 8). -/
def S32K1XX_FTFC_BASE : Nat := 0x40020000

def S32K1XX_FTFC_FSTAT : Nat := S32K1XX_FTFC_BASE + 0x0

def S32K1XX_FTFC_FCCOB3 : Nat := S32K1XX_FTFC_BASE + 0x4

def S32K1XX_FTFC_FCCOB2 : Nat := S32K1XX_FTFC_BASE + 0x5

def S32K1XX_FTFC_FCCOB1 : Nat := S32K1XX_FTFC_BASE + 0x6

def S32K1XX_FTFC_FCCOB0 : Nat := S32K1XX_FTFC_BASE + 0x7

def S32K1XX_FTFC_FCCOB7 : Nat := S32K1XX_FTFC_BASE + 0x8

def S32K1XX_FTFC_FCCOB6 : Nat := S32K1XX_FTFC_BASE + 0x9

def S32K1XX_FTFC_FCCOB5 : Nat := S32K1XX_FTFC_BASE + 0xa

def S32K1XX_FTFC_FCCOB4 : Nat := S32K1XX_FTFC_BASE + 0xb

/-- FSTAT bit masks.  Modelled from the spec: the hardware header is not among
the translated sources; the spec's `CommandStatus` names them completed
(CCIF), read-collision, access-error, protection-violation and
operation-error (MGSTAT0).  The numeric positions are the standard ones; the
development only relies on them being distinct single bits. -/
def FTTC_FSTAT_CCIF : Nat := 0x80

def FTTC_FSTAT_RDCOLERR : Nat := 0x40

def FTTC_FSTAT_ACCERR : Nat := 0x20

def FTTC_FSTAT_FPVIOL : Nat := 0x10

def FTTC_FSTAT_MGSTAT0 : Nat := 0x01

/-- The error mask the driver tests after every command, written out in the
source as `MGSTAT0 | FPVIOL | ACCERR | RDCOLERR`. -/
def FTFC_ERR_MASK : Nat :=
  FTTC_FSTAT_MGSTAT0 ||| FTTC_FSTAT_FPVIOL ||| FTTC_FSTAT_ACCERR ||| FTTC_FSTAT_RDCOLERR

/-- FTFC command opcodes.  Modelled from the spec: the command header is not
among the translated sources; only distinctness of the opcodes matters. -/
def S32K1XX_FTFC_VERIFY_SECTION : Nat := 0x01

def S32K1XX_FTFC_PROGRAM_CHECK : Nat := 0x02

def S32K1XX_FTFC_PROGRAM_PHRASE : Nat := 0x07

def S32K1XX_FTFC_ERASE_SECTOR : Nat := 0x09

/-- errno values used by the driver (from errno.h). -/
def EINVAL : Int := 22

def EFAULT : Int := 14

/-- errno value for an input/output error (named EIO in errno.h). -/
def EIOERR : Int := 5

/-- The configuration constants of `s32k1xx_progmem.h` (macros
`S32K1XX_PROGMEM_*`), bundled as an explicit parameter of the embedding. -/
structure ProgmemCfg where
  START_ADDR : Nat
  PAGE_SIZE : Nat
  PAGE_COUNT : Nat
  BLOCK_SECTOR_SIZE : Nat
  SECTOR_COUNT : Nat
  DFLASH_WRITE_UNIT_SIZE : Nat
deriving DecidableEq

/-- Modelled from the spec: the geometry header `s32k1xx_progmem.h` is not
among the translated sources.  The data flash (FlexNVM) of the S32K14x sits
at logical base 0x10000000; pages and erase sectors are 2 KiB, and program
commands move 8-byte phrases, matching the spec's geometry description (§3)
and its worked scenario (§8). -/
def cfgS : ProgmemCfg :=
  { START_ADDR := 0x10000000
    PAGE_SIZE := 2048
    PAGE_COUNT := 32
    BLOCK_SECTOR_SIZE := 2048
    SECTOR_COUNT := 32
    DFLASH_WRITE_UNIT_SIZE := 8 }

/-- `up_progmem_neraseblocks`: number of erase blocks. -/
def up_progmem_neraseblocks (c : ProgmemCfg) : Nat := c.SECTOR_COUNT

/-- `up_progmem_isuniform`: always true for this hardware. -/
def up_progmem_isuniform : Bool := true

/-- `up_progmem_pagesize`: the fixed page size, the index is ignored. -/
def up_progmem_pagesize (c : ProgmemCfg) (page : Nat) : Nat := c.PAGE_SIZE

/-- `up_progmem_erasesize`: the fixed erase-sector size, the index is
ignored. -/
def up_progmem_erasesize (c : ProgmemCfg) (block : Nat) : Nat := c.BLOCK_SECTOR_SIZE

/-- `up_progmem_getpage`: address to page conversion.  The source subtracts
the flash base when the address is absolute and divides by the page size. -/
def up_progmem_getpage (c : ProgmemCfg) (addr : Nat) : Nat :=
  (if c.START_ADDR ≤ addr then addr - c.START_ADDR else addr) / c.PAGE_SIZE

/-- `up_progmem_getaddress`: page to base-address conversion, computed in
32-bit `size_t` arithmetic. -/
def up_progmem_getaddress (c : ProgmemCfg) (page : Nat) : Nat :=
  (c.START_ADDR + page * c.PAGE_SIZE) % 2 ^ 32

/-- One hardware-port event: a byte read or a byte write at a register
address. -/
inductive Ev where
  | rd (addr val : Nat)
  | wr (addr val : Nat)
deriving DecidableEq

/-- `wait_ftfc_ready`: poll FSTAT until the CCIF completion flag is set.  The
oracle supplies the successive read values; exhausting it without seeing CCIF
models the unbounded busy-wait never terminating. -/
def wait_ftfc_ready : List Nat → Option (List Ev × List Nat)
  | [] => none
  | v :: o =>
    if v &&& FTTC_FSTAT_CCIF = 0 then
      match wait_ftfc_ready o with
      | none => none
      | some (t, o1) => some (Ev.rd S32K1XX_FTFC_FSTAT v :: t, o1)
    else
      some ([Ev.rd S32K1XX_FTFC_FSTAT v], o)

/-- The value `execute_ftfc_command` returns for a final status read
`retval`: the source tests the error mask and returns `retval` on both the
error branch and the fall-through path. -/
def exec_status_result (retval : Nat) : Nat :=
  if retval &&& FTFC_ERR_MASK ≠ 0 then
    retval
  else
    retval

/-- `execute_ftfc_command`: read FSTAT, write it back with CCIF set (the
launch, CCIF being write-one-to-clear), busy-wait for completion, then read
FSTAT once more and return that value. -/
def execute_ftfc_command : List Nat → Option (Nat × List Ev × List Nat)
  | [] => none
  | regval :: o =>
    match wait_ftfc_ready o with
    | none => none
    | some (t, o1) =>
      match o1 with
      | [] => none
      | retval :: o2 =>
        some (exec_status_result retval,
          Ev.rd S32K1XX_FTFC_FSTAT regval ::
            Ev.wr S32K1XX_FTFC_FSTAT (regval ||| FTTC_FSTAT_CCIF) ::
            t ++ [Ev.rd S32K1XX_FTFC_FSTAT retval], o2)

/-- The write that clears the pending FSTAT error flags
(`FPVIOL | ACCERR | RDCOLERR`, write-one-to-clear). -/
def clearErrsWrite : Ev :=
  Ev.wr S32K1XX_FTFC_FSTAT (FTTC_FSTAT_FPVIOL ||| FTTC_FSTAT_ACCERR ||| FTTC_FSTAT_RDCOLERR)

/-- Byte `fccob1` of the little-endian `fccob_flash_addr` union: bits 16..23
of the 32-bit address. -/
def fccob1_of (a : Nat) : Nat := a / 2 ^ 16 % 2 ^ 8

/-- Byte `fccob2` of the union: bits 8..15 of the address. -/
def fccob2_of (a : Nat) : Nat := a / 2 ^ 8 % 2 ^ 8

/-- Byte `fccob3` of the union: bits 0..7 of the address. -/
def fccob3_of (a : Nat) : Nat := a % 2 ^ 8

/-- The common register-staging sequence of every command: clear the error
flags, load the opcode into FCCOB0 and the three big-endian address bytes
into FCCOB1..FCCOB3. -/
def fccob_setup (opcode dest : Nat) : List Ev :=
  [clearErrsWrite,
   Ev.wr S32K1XX_FTFC_FCCOB0 opcode,
   Ev.wr S32K1XX_FTFC_FCCOB1 (fccob1_of dest),
   Ev.wr S32K1XX_FTFC_FCCOB2 (fccob2_of dest),
   Ev.wr S32K1XX_FTFC_FCCOB3 (fccob3_of dest)]

/-- The controller-visible target of `up_progmem_eraseblock`:
`block * BLOCK_SECTOR_SIZE + 0x800000 - START_ADDR` in wrapping 32-bit
arithmetic. -/
def erase_dest (c : ProgmemCfg) (block : Nat) : Nat :=
  (block * c.BLOCK_SECTOR_SIZE + 0x800000 + (2 ^ 32 - c.START_ADDR % 2 ^ 32)) % 2 ^ 32

/-- `up_progmem_eraseblock`.  `verify` models the compile-time
`FTFC_VERIFY_CHECK` gate around the post-erase verify-section command. -/
def up_progmem_eraseblock (c : ProgmemCfg) (verify : Bool) (block : Nat)
    (o : List Nat) : Option (Int × List Ev) :=
  match wait_ftfc_ready o with
  | none => none
  | some (t0, o0) =>
    match execute_ftfc_command o0 with
    | none => none
    | some (s, t1, o1) =>
      if s &&& FTFC_ERR_MASK ≠ 0 then
        some (-EIOERR,
          t0 ++ fccob_setup S32K1XX_FTFC_ERASE_SECTOR (erase_dest c block) ++ t1)
      else if verify then
        match wait_ftfc_ready o1 with
        | none => none
        | some (t2, o2) =>
          match execute_ftfc_command o2 with
          | none => none
          | some (s2, t3, _) =>
            let tr :=
              t0 ++ fccob_setup S32K1XX_FTFC_ERASE_SECTOR (erase_dest c block) ++ t1 ++
              t2 ++ fccob_setup S32K1XX_FTFC_VERIFY_SECTION (erase_dest c block) ++
              [Ev.wr S32K1XX_FTFC_FCCOB4 1, Ev.wr S32K1XX_FTFC_FCCOB5 0,
               Ev.wr S32K1XX_FTFC_FCCOB6 1] ++ t3
            if s2 &&& FTFC_ERR_MASK ≠ 0 then some (-EIOERR, tr)
            else some ((c.BLOCK_SECTOR_SIZE : Int), tr)
      else
        some ((c.BLOCK_SECTOR_SIZE : Int),
          t0 ++ fccob_setup S32K1XX_FTFC_ERASE_SECTOR (erase_dest c block) ++ t1)

/-- The per-chunk payload stores of `up_progmem_write`: byte `j` of the
current chunk goes to `S32K1XX_FTFC_BASE + j + slot` (slot 0x8 for the
program-phrase data, 0xc for the program-check expected data). -/
def payload_writes (c : ProgmemCfg) (buf : Nat → Nat) (srcOff slot : Nat) : List Ev :=
  (List.range c.DFLASH_WRITE_UNIT_SIZE).map
    (fun j => Ev.wr (S32K1XX_FTFC_BASE + j + slot) (buf (srcOff + j)))

/-- The full trace of one program-phrase chunk: pre-wait, register staging,
payload stores, then the executor's own events. -/
def program_chunk_trace (c : ProgmemCfg) (buf : Nat → Nat) (dest srcOff : Nat)
    (t0 t1 : List Ev) : List Ev :=
  t0 ++ fccob_setup S32K1XX_FTFC_PROGRAM_PHRASE dest ++
    payload_writes c buf srcOff 0x8 ++ t1

/-- Outcome of the program-phrase chunk loop. -/
inductive ChunkOut where
  | ok (tr : List Ev) (o : List Nat)
  | ioerr (tr : List Ev)
deriving DecidableEq

/-- The program-phrase loop of `up_progmem_write`: one iteration per
`DFLASH_WRITE_UNIT_SIZE` chunk, aborting with `-EIO` on the first failed
command status and otherwise advancing destination and source by the unit. -/
def program_chunks (c : ProgmemCfg) (buf : Nat → Nat) :
    Nat → Nat → Nat → List Nat → Option ChunkOut
  | 0, _, _, o => some (ChunkOut.ok [] o)
  | n + 1, dest, srcOff, o =>
    match wait_ftfc_ready o with
    | none => none
    | some (t0, o0) =>
      match execute_ftfc_command o0 with
      | none => none
      | some (s, t1, o1) =>
        if s &&& FTFC_ERR_MASK ≠ 0 then
          some (ChunkOut.ioerr (program_chunk_trace c buf dest srcOff t0 t1))
        else
          match program_chunks c buf n ((dest + c.DFLASH_WRITE_UNIT_SIZE) % 2 ^ 32)
              (srcOff + c.DFLASH_WRITE_UNIT_SIZE) o1 with
          | none => none
          | some (ChunkOut.ok tr o2) =>
            some (ChunkOut.ok (program_chunk_trace c buf dest srcOff t0 t1 ++ tr) o2)
          | some (ChunkOut.ioerr tr) =>
            some (ChunkOut.ioerr (program_chunk_trace c buf dest srcOff t0 t1 ++ tr))

/-- The full trace of one program-check (verify) chunk. -/
def verify_chunk_trace (c : ProgmemCfg) (buf : Nat → Nat) (dest srcOff : Nat)
    (t0 t1 : List Ev) : List Ev :=
  t0 ++ fccob_setup S32K1XX_FTFC_PROGRAM_CHECK dest ++
    [Ev.wr S32K1XX_FTFC_FCCOB4 1] ++ payload_writes c buf srcOff 0xc ++ t1

/-- Outcome of the program-check (verify) chunk loop: `bail` is the source's
early `return count` on a failed verify status. -/
inductive VerifyOut where
  | done (tr : List Ev) (o : List Nat)
  | bail (tr : List Ev)
deriving DecidableEq

/-- The verify loop of `up_progmem_write` (gated by `FTFC_VERIFY_CHECK`):
one program-check command per chunk with margin level 1; a failed status
makes the whole write return `count` immediately. -/
def verify_chunks (c : ProgmemCfg) (buf : Nat → Nat) :
    Nat → Nat → Nat → List Nat → Option VerifyOut
  | 0, _, _, o => some (VerifyOut.done [] o)
  | n + 1, dest, srcOff, o =>
    match wait_ftfc_ready o with
    | none => none
    | some (t0, o0) =>
      match execute_ftfc_command o0 with
      | none => none
      | some (s, t1, o1) =>
        if s &&& FTFC_ERR_MASK ≠ 0 then
          some (VerifyOut.bail (verify_chunk_trace c buf dest srcOff t0 t1))
        else
          match verify_chunks c buf n ((dest + c.DFLASH_WRITE_UNIT_SIZE) % 2 ^ 32)
              (srcOff + c.DFLASH_WRITE_UNIT_SIZE) o1 with
          | none => none
          | some (VerifyOut.done tr o2) =>
            some (VerifyOut.done (verify_chunk_trace c buf dest srcOff t0 t1 ++ tr) o2)
          | some (VerifyOut.bail tr) =>
            some (VerifyOut.bail (verify_chunk_trace c buf dest srcOff t0 t1 ++ tr))

/-- The body of `up_progmem_write` after the absolute-address adjustment:
`rel` is the base-relative target offset. -/
def write_body (c : ProgmemCfg) (verify : Bool) (rel : Nat) (buf : Nat → Nat)
    (count : Nat) (o : List Nat) : Option (Int × List Ev) :=
  if count % c.DFLASH_WRITE_UNIT_SIZE ≠ 0 then
    some (-EINVAL, [])
  else
    match program_chunks c buf (count / c.DFLASH_WRITE_UNIT_SIZE)
        ((rel + 0x800000) % 2 ^ 32) 0 o with
    | none => none
    | some (ChunkOut.ioerr tr) => some (-EIOERR, tr)
    | some (ChunkOut.ok tr o1) =>
      if verify then
        match verify_chunks c buf (count / c.DFLASH_WRITE_UNIT_SIZE)
            ((rel + 0x800000) % 2 ^ 32) 0 o1 with
        | none => none
        | some (VerifyOut.bail tr2) => some ((count : Int), tr ++ tr2)
        | some (VerifyOut.done tr2 _) => some ((count : Int), tr ++ tr2)
      else
        some ((count : Int), tr)

/-- `up_progmem_write`: accept an absolute or base-relative address, check
the count alignment, then program (and optionally verify) the buffer chunk
by chunk.  `verify` models the compile-time `FTFC_VERIFY_CHECK` gate. -/
def up_progmem_write (c : ProgmemCfg) (verify : Bool) (addr : Nat)
    (buf : Nat → Nat) (count : Nat) (o : List Nat) : Option (Int × List Ev) :=
  write_body c verify (if c.START_ADDR ≤ addr then addr - c.START_ADDR else addr)
    buf count o

/-- The scan loop of `up_progmem_ispageerased`: starting at in-page index
`i` with `n` bytes left, return the index of the first byte that is not the
erased sentinel 0xFF, or the end index when all remaining bytes are 0xFF. -/
def first_not_erased (mem : Nat → Nat) (base : Nat) : Nat → Nat → Nat
  | 0, i => i
  | n + 1, i =>
    if mem (base + i) ≠ 0xff then i
    else first_not_erased mem base n (i + 1)

/-- `up_progmem_ispageerased`: validate the page index, then scan the
memory-mapped page for the first non-0xFF byte and return
`PAGE_SIZE - scanned_count`.  `mem` is the byte content of the address
space. -/
def up_progmem_ispageerased (c : ProgmemCfg) (mem : Nat → Nat) (page : Nat) : Int :=
  if c.PAGE_COUNT ≤ page then -EFAULT
  else
    (c.PAGE_SIZE : Int) -
      (first_not_erased mem (up_progmem_getaddress c page) c.PAGE_SIZE 0 : Int)

/-- An oracle on which every command completes promptly: per command status
`s`, one ready poll before staging (0x80), the executor's initial read
(0x80), one ready poll after launch (0x80), and the final status read `s`. -/
def promptOracle : List Nat → List Nat
  | [] => []
  | s :: ss => 0x80 :: 0x80 :: 0x80 :: s :: promptOracle ss

/-- Number of program-phrase command dispatches (writes of the
program-phrase opcode to FCCOB0) in a trace. -/
def countProgramPhrase : List Ev → Nat
  | [] => 0
  | Ev.rd _ _ :: t => countProgramPhrase t
  | Ev.wr a v :: t =>
    (if a = S32K1XX_FTFC_FCCOB0 ∧ v = S32K1XX_FTFC_PROGRAM_PHRASE then 1 else 0) +
      countProgramPhrase t

/-- Modelled from the spec: the FSTAT flag bits (completion and the three
error flags) are write-one-to-clear; the stored register semantics of a
write is not part of the translated sources. -/
def FSTAT_W1C_BITS : Nat :=
  FTTC_FSTAT_CCIF ||| FTTC_FSTAT_RDCOLERR ||| FTTC_FSTAT_ACCERR ||| FTTC_FSTAT_FPVIOL

/-- Modelled from the spec: the stored FSTAT value after the driver writes
byte `w` over stored value `old` — every write-one-to-clear flag bit written
as 1 becomes 0, all other bits keep their stored value. -/
def fstat_apply_write (old w : Nat) : Nat :=
  old &&& (0xff ^^^ (w &&& FSTAT_W1C_BITS))

/-! Helper lemmas. -/

theorem exec_status_result_id (v : Nat) : exec_status_result v = v := by
  unfold exec_status_result
  split <;> rfl

theorem wait_ready_cons {v : Nat} (o : List Nat) (h : v &&& FTTC_FSTAT_CCIF ≠ 0) :
    wait_ftfc_ready (v :: o) = some ([Ev.rd S32K1XX_FTFC_FSTAT v], o) := by
  simp [wait_ftfc_ready, h]

theorem execute_prompt {w3 : Nat} (w2 s : Nat) (rest : List Nat)
    (h3 : w3 &&& FTTC_FSTAT_CCIF ≠ 0) :
    execute_ftfc_command (w2 :: w3 :: s :: rest) =
      some (s,
        [Ev.rd S32K1XX_FTFC_FSTAT w2,
         Ev.wr S32K1XX_FTFC_FSTAT (w2 ||| FTTC_FSTAT_CCIF),
         Ev.rd S32K1XX_FTFC_FSTAT w3,
         Ev.rd S32K1XX_FTFC_FSTAT s], rest) := by
  simp [execute_ftfc_command, wait_ready_cons _ h3, exec_status_result_id]

theorem wait_shape (o : List Nat) : ∀ t o1, wait_ftfc_ready o = some (t, o1) →
    ∃ (vs : List Nat) (v : Nat),
      t = vs.map (Ev.rd S32K1XX_FTFC_FSTAT) ++ [Ev.rd S32K1XX_FTFC_FSTAT v] ∧
      (∀ x ∈ vs, x &&& FTTC_FSTAT_CCIF = 0) ∧ v &&& FTTC_FSTAT_CCIF ≠ 0 := by
  induction o with
  | nil => intro t o1 h; simp [wait_ftfc_ready] at h
  | cons w o ih =>
    intro t o1 h
    simp only [wait_ftfc_ready] at h
    by_cases hw : w &&& FTTC_FSTAT_CCIF = 0
    · rw [if_pos hw] at h
      cases hrec : wait_ftfc_ready o with
      | none => rw [hrec] at h; simp at h
      | some p =>
        obtain ⟨t2, o2⟩ := p
        rw [hrec] at h
        simp only [Option.some.injEq, Prod.mk.injEq] at h
        obtain ⟨ht, ho⟩ := h
        obtain ⟨vs, v, hts, hvs, hv⟩ := ih t2 o2 hrec
        refine ⟨w :: vs, v, ?_, ?_, hv⟩
        · rw [← ht, hts]; simp
        · intro x hx
          rcases List.mem_cons.mp hx with hx | hx
          · rw [hx]; exact hw
          · exact hvs x hx
    · rw [if_neg hw] at h
      simp only [Option.some.injEq, Prod.mk.injEq] at h
      obtain ⟨ht, ho⟩ := h
      exact ⟨[], w, by rw [← ht]; simp, by simp, hw⟩

theorem err_mask_of_fpviol {s : Nat} (h : s &&& FTTC_FSTAT_FPVIOL ≠ 0) :
    s &&& FTFC_ERR_MASK ≠ 0 := by
  intro h0
  apply h
  have h1 : s &&& FTFC_ERR_MASK &&& FTTC_FSTAT_FPVIOL = 0 := by
    rw [h0]; exact Nat.zero_and _
  rw [Nat.and_assoc] at h1
  have h2 : FTFC_ERR_MASK &&& FTTC_FSTAT_FPVIOL = FTTC_FSTAT_FPVIOL := by decide
  rw [h2] at h1
  exact h1

theorem and_ccif_ne_iff {w : Nat} : w &&& FTTC_FSTAT_CCIF ≠ 0 ↔ w.testBit 7 = true := by
  have hc : FTTC_FSTAT_CCIF = 2 ^ 7 := by decide
  rw [hc, Nat.and_two_pow]
  cases hw : w.testBit 7 <;> simp [hw]

theorem or_ccif_and_ccif_ne (r0 : Nat) :
    (r0 ||| FTTC_FSTAT_CCIF) &&& FTTC_FSTAT_CCIF ≠ 0 := by
  rw [and_ccif_ne_iff, Nat.testBit_or]
  have h : FTTC_FSTAT_CCIF.testBit 7 = true := by decide
  simp [h]

theorem fstat_apply_write_clears_ccif (old w : Nat)
    (h : w &&& FTTC_FSTAT_CCIF ≠ 0) :
    fstat_apply_write old w &&& FTTC_FSTAT_CCIF = 0 := by
  have hw7 : w.testBit 7 = true := and_ccif_ne_iff.mp h
  have hmask : (0xff ^^^ (w &&& FSTAT_W1C_BITS)) &&& FTTC_FSTAT_CCIF = 0 := by
    have hc : FTTC_FSTAT_CCIF = 2 ^ 7 := by decide
    rw [hc, Nat.and_two_pow]
    have hf : (0xff ^^^ (w &&& FSTAT_W1C_BITS)).testBit 7 = false := by
      rw [Nat.testBit_xor, Nat.testBit_and]
      have h1 : (0xff : Nat).testBit 7 = true := by decide
      have h2 : FSTAT_W1C_BITS.testBit 7 = true := by decide
      rw [h1, h2, hw7]
      rfl
    rw [hf]
    rfl
  unfold fstat_apply_write
  rw [Nat.and_assoc, hmask, Nat.and_zero]

/-! Claim theorems. -/

/-- C1: for every page index `p` below the page count, converting `p` to its
base address with `up_progmem_getaddress` and that address back with
`up_progmem_getpage` recovers `p`.  The geometry constants are parameters;
the hypotheses say the page size is nonzero and the whole flash region fits
the 32-bit `size_t` space, as any real configuration satisfies. -/
theorem getpage_getaddress_roundtrip (c : ProgmemCfg) (p : Nat)
    (hP : 0 < c.PAGE_SIZE)
    (hcap : c.START_ADDR + c.PAGE_COUNT * c.PAGE_SIZE ≤ 2 ^ 32)
    (hp : p < c.PAGE_COUNT) :
    up_progmem_getpage c (up_progmem_getaddress c p) = p := by
  have hlt : c.START_ADDR + p * c.PAGE_SIZE < 2 ^ 32 := by
    have h2 : (p + 1) * c.PAGE_SIZE ≤ c.PAGE_COUNT * c.PAGE_SIZE :=
      Nat.mul_le_mul_right _ hp
    rw [Nat.succ_mul] at h2
    omega
  unfold up_progmem_getaddress up_progmem_getpage
  rw [Nat.mod_eq_of_lt hlt, if_pos (Nat.le_add_right _ _), Nat.add_sub_cancel_left]
  exact Nat.mul_div_left p hP

/-- C1 witness at the concrete configuration, page 3. -/
theorem getpage_getaddress_roundtrip_witness :
    (0 < cfgS.PAGE_SIZE ∧
      cfgS.START_ADDR + cfgS.PAGE_COUNT * cfgS.PAGE_SIZE ≤ 2 ^ 32 ∧ 3 < cfgS.PAGE_COUNT) ∧
    up_progmem_getpage cfgS (up_progmem_getaddress cfgS 3) = 3 :=
  ⟨by refine ⟨by decide, by decide, by decide⟩,
   getpage_getaddress_roundtrip cfgS 3 (by decide) (by decide) (by decide)⟩

/-- C2: a count that is not an exact multiple of the write unit makes
`up_progmem_write` return `-EINVAL` with an empty hardware trace: no register
read, register write or command is issued. -/
theorem write_misaligned_returns_einval (c : ProgmemCfg) (verify : Bool)
    (addr : Nat) (buf : Nat → Nat) (count : Nat) (o : List Nat)
    (h : count % c.DFLASH_WRITE_UNIT_SIZE ≠ 0) :
    up_progmem_write c verify addr buf count o = some (-EINVAL, []) := by
  unfold up_progmem_write write_body
  rw [if_pos h]

/-- C2 witness: count 15 with write unit 8 (the spec's own scenario). -/
theorem write_misaligned_returns_einval_witness :
    15 % cfgS.DFLASH_WRITE_UNIT_SIZE ≠ 0 ∧
    up_progmem_write cfgS false 0 (fun _ => 0) 15 [] = some (-EINVAL, []) :=
  ⟨by decide, write_misaligned_returns_einval cfgS false 0 (fun _ => 0) 15 [] (by decide)⟩

/-- C3: with the verify phase disabled (the ungated build), the erase result
is `-EIO` exactly when the decoded status of the erase-sector command has one
of the four error bits set, and the block byte size otherwise.  The oracle
shape lets the two busy-waits complete on `w1` and `w3` and delivers `s` as
the decoded status. -/
theorem eraseblock_status_maps (c : ProgmemCfg) (block s w1 w2 w3 : Nat)
    (rest : List Nat)
    (h1 : w1 &&& FTTC_FSTAT_CCIF ≠ 0) (h3 : w3 &&& FTTC_FSTAT_CCIF ≠ 0) :
    up_progmem_eraseblock c false block (w1 :: w2 :: w3 :: s :: rest) =
      some ((if s &&& FTFC_ERR_MASK ≠ 0 then -EIOERR else (c.BLOCK_SECTOR_SIZE : Int)),
        Ev.rd S32K1XX_FTFC_FSTAT w1 ::
          (fccob_setup S32K1XX_FTFC_ERASE_SECTOR (erase_dest c block) ++
           [Ev.rd S32K1XX_FTFC_FSTAT w2,
            Ev.wr S32K1XX_FTFC_FSTAT (w2 ||| FTTC_FSTAT_CCIF),
            Ev.rd S32K1XX_FTFC_FSTAT w3,
            Ev.rd S32K1XX_FTFC_FSTAT s])) := by
  simp only [up_progmem_eraseblock, wait_ready_cons _ h1, execute_prompt w2 s rest h3]
  by_cases hs : s &&& FTFC_ERR_MASK ≠ 0
  · simp [hs]
  · simp [hs]

/-- C3 witness: clean status 0x80 (completion flag only) yields the block
size; the oracle completes each poll at once. -/
theorem eraseblock_status_maps_witness :
    (0x80 &&& FTTC_FSTAT_CCIF ≠ 0) ∧
    up_progmem_eraseblock cfgS false 0 [0x80, 0x80, 0x80, 0x80] =
      some ((if 0x80 &&& FTFC_ERR_MASK ≠ 0 then -EIOERR else (cfgS.BLOCK_SECTOR_SIZE : Int)),
        Ev.rd S32K1XX_FTFC_FSTAT 0x80 ::
          (fccob_setup S32K1XX_FTFC_ERASE_SECTOR (erase_dest cfgS 0) ++
           [Ev.rd S32K1XX_FTFC_FSTAT 0x80,
            Ev.wr S32K1XX_FTFC_FSTAT (0x80 ||| FTTC_FSTAT_CCIF),
            Ev.rd S32K1XX_FTFC_FSTAT 0x80,
            Ev.rd S32K1XX_FTFC_FSTAT 0x80])) :=
  ⟨by decide, eraseblock_status_maps cfgS 0 0x80 0x80 0x80 0x80 [] (by decide) (by decide)⟩

theorem eraseblock_result_cases (c : ProgmemCfg) (verify : Bool) (block : Nat)
    (o : List Nat) (r : Int) (tr : List Ev)
    (h : up_progmem_eraseblock c verify block o = some (r, tr)) :
    r = -EIOERR ∨ r = (c.BLOCK_SECTOR_SIZE : Int) := by
  unfold up_progmem_eraseblock at h
  repeat' split at h
  all_goals simp_all

theorem write_result_cases (c : ProgmemCfg) (verify : Bool) (addr : Nat)
    (buf : Nat → Nat) (count : Nat) (o : List Nat) (r : Int) (tr : List Ev)
    (h : up_progmem_write c verify addr buf count o = some (r, tr)) :
    r = -EINVAL ∨ r = -EIOERR ∨ r = (count : Int) := by
  unfold up_progmem_write write_body at h
  repeat' split at h
  all_goals simp_all

/-- C7: an out-of-range page index makes `up_progmem_ispageerased` return
`-EFAULT`, and the result is the same for every memory content, so no flash
byte is consulted.  It is the only operation that validates its index: the
erase and write paths never produce `-EFAULT`, and the geometry queries
answer every index with the fixed constants. -/
theorem ispageerased_validates_index (c : ProgmemCfg) (mem : Nat → Nat) (page : Nat)
    (h : c.PAGE_COUNT ≤ page) :
    up_progmem_ispageerased c mem page = -EFAULT ∧
    (∀ mem2 : Nat → Nat, up_progmem_ispageerased c mem2 page = -EFAULT) ∧
    (∀ (verify : Bool) (block : Nat) (o : List Nat) (r : Int) (tr : List Ev),
      up_progmem_eraseblock c verify block o = some (r, tr) → r ≠ -EFAULT) ∧
    (∀ (verify : Bool) (addr : Nat) (buf : Nat → Nat) (count : Nat) (o : List Nat)
      (r : Int) (tr : List Ev),
      up_progmem_write c verify addr buf count o = some (r, tr) → r ≠ -EFAULT) ∧
    (∀ p2, up_progmem_pagesize c p2 = c.PAGE_SIZE) ∧
    (∀ b2, up_progmem_erasesize c b2 = c.BLOCK_SECTOR_SIZE) := by
  refine ⟨?_, ?_, ?_, ?_, fun _ => rfl, fun _ => rfl⟩
  · unfold up_progmem_ispageerased; rw [if_pos h]
  · intro mem2; unfold up_progmem_ispageerased; rw [if_pos h]
  · intro verify block o r tr ho
    rcases eraseblock_result_cases c verify block o r tr ho with h1 | h1
    · rw [h1]; decide
    · rw [h1]
      intro heq
      have hn : (0 : Int) ≤ (c.BLOCK_SECTOR_SIZE : Int) := Int.natCast_nonneg _
      rw [heq] at hn
      simp [EFAULT] at hn
  · intro verify addr buf count o r tr ho
    rcases write_result_cases c verify addr buf count o r tr ho with h1 | h1 | h1
    · rw [h1]; decide
    · rw [h1]; decide
    · rw [h1]
      intro heq
      have hn : (0 : Int) ≤ (count : Int) := Int.natCast_nonneg _
      rw [heq] at hn
      simp [EFAULT] at hn

/-- C7 witness: page 32 of a 32-page flash. -/
theorem ispageerased_validates_index_witness :
    cfgS.PAGE_COUNT ≤ 32 ∧
    up_progmem_ispageerased cfgS (fun _ => 0xff) 32 = -EFAULT :=
  ⟨by decide,
   (ispageerased_validates_index cfgS (fun _ => 0xff) 32 (by decide)).1⟩

/-- C10: `execute_ftfc_command` returns the raw final status register value
unconditionally — the error branch and the fall-through path of its return
compute the identical value, so the trace always ends with a status read
whose value is the returned one, and callers must re-test the error bits
themselves. -/
theorem execute_returns_raw_status :
    (∀ v, exec_status_result v = v) ∧
    (∀ (o : List Nat) (r : Nat) (tr : List Ev) (o1 : List Nat),
      execute_ftfc_command o = some (r, tr, o1) →
      ∃ t, tr = t ++ [Ev.rd S32K1XX_FTFC_FSTAT r]) := by
  refine ⟨exec_status_result_id, ?_⟩
  intro o r tr o1 h
  match o with
  | [] => simp [execute_ftfc_command] at h
  | regval :: o2 =>
    simp only [execute_ftfc_command] at h
    cases hw : wait_ftfc_ready o2 with
    | none => rw [hw] at h; simp at h
    | some p =>
      obtain ⟨t, o3⟩ := p
      rw [hw] at h
      cases o3 with
      | nil => simp at h
      | cons retval o4 =>
        simp only [Option.some.injEq, Prod.mk.injEq] at h
        obtain ⟨hr, htr, ho⟩ := h
        refine ⟨Ev.rd S32K1XX_FTFC_FSTAT regval ::
          Ev.wr S32K1XX_FTFC_FSTAT (regval ||| FTTC_FSTAT_CCIF) :: t, ?_⟩
        rw [← htr, ← hr, exec_status_result_id]

/-- C10 witness: a concrete run whose final status 0x55 has error bits set is
still returned verbatim, at the end of the trace. -/
theorem execute_returns_raw_status_witness :
    exec_status_result 0x55 = 0x55 ∧
    ∃ t, [Ev.rd S32K1XX_FTFC_FSTAT 0x00, Ev.wr S32K1XX_FTFC_FSTAT 0x80,
          Ev.rd S32K1XX_FTFC_FSTAT 0x80, Ev.rd S32K1XX_FTFC_FSTAT 0x55] =
        t ++ [Ev.rd S32K1XX_FTFC_FSTAT 0x55] :=
  ⟨execute_returns_raw_status.1 0x55,
   execute_returns_raw_status.2 [0x00, 0x80, 0x55] 0x55
     [Ev.rd S32K1XX_FTFC_FSTAT 0x00, Ev.wr S32K1XX_FTFC_FSTAT 0x80,
      Ev.rd S32K1XX_FTFC_FSTAT 0x80, Ev.rd S32K1XX_FTFC_FSTAT 0x55] [] (by decide)⟩

/-- C6: every completing run of `execute_ftfc_command` first reads FSTAT and
writes it back with the completion bit set — which, the flag being
write-one-to-clear, leaves the stored completion flag at 0 and launches the
command — then busy-polls FSTAT (every poll before the last sees the flag
clear, the last sees it re-asserted), and finally reads FSTAT exactly once
more, returning precisely that value as the status. -/
theorem execute_launch_protocol (o : List Nat) (r : Nat) (tr : List Ev) (o1 : List Nat)
    (h : execute_ftfc_command o = some (r, tr, o1)) :
    ∃ (r0 : Nat) (vs : List Nat) (v : Nat),
      tr = Ev.rd S32K1XX_FTFC_FSTAT r0 ::
        Ev.wr S32K1XX_FTFC_FSTAT (r0 ||| FTTC_FSTAT_CCIF) ::
        (vs.map (Ev.rd S32K1XX_FTFC_FSTAT) ++ [Ev.rd S32K1XX_FTFC_FSTAT v]) ++
        [Ev.rd S32K1XX_FTFC_FSTAT r] ∧
      (∀ old, fstat_apply_write old (r0 ||| FTTC_FSTAT_CCIF) &&& FTTC_FSTAT_CCIF = 0) ∧
      (∀ x ∈ vs, x &&& FTTC_FSTAT_CCIF = 0) ∧ v &&& FTTC_FSTAT_CCIF ≠ 0 := by
  match o with
  | [] => simp [execute_ftfc_command] at h
  | regval :: o2 =>
    simp only [execute_ftfc_command] at h
    cases hw : wait_ftfc_ready o2 with
    | none => rw [hw] at h; simp at h
    | some p =>
      obtain ⟨t, o3⟩ := p
      rw [hw] at h
      cases o3 with
      | nil => simp at h
      | cons retval o4 =>
        simp only [Option.some.injEq, Prod.mk.injEq] at h
        obtain ⟨hr, htr, ho⟩ := h
        obtain ⟨vs, v, hts, hvs, hv⟩ := wait_shape o2 t (retval :: o4) hw
        refine ⟨regval, vs, v, ?_, ?_, hvs, hv⟩
        · rw [← htr, ← hr, exec_status_result_id, hts]
        · intro old
          exact fstat_apply_write_clears_ccif old _ (or_ccif_and_ccif_ne regval)

/-- C6 witness: a concrete completing run with one busy-free poll. -/
theorem execute_launch_protocol_witness :
    ∃ (r0 : Nat) (vs : List Nat) (v : Nat),
      [Ev.rd S32K1XX_FTFC_FSTAT 0x00, Ev.wr S32K1XX_FTFC_FSTAT 0x80,
       Ev.rd S32K1XX_FTFC_FSTAT 0x80, Ev.rd S32K1XX_FTFC_FSTAT 0x55] =
        Ev.rd S32K1XX_FTFC_FSTAT r0 ::
          Ev.wr S32K1XX_FTFC_FSTAT (r0 ||| FTTC_FSTAT_CCIF) ::
          (vs.map (Ev.rd S32K1XX_FTFC_FSTAT) ++ [Ev.rd S32K1XX_FTFC_FSTAT v]) ++
          [Ev.rd S32K1XX_FTFC_FSTAT 0x55] ∧
      (∀ old, fstat_apply_write old (r0 ||| FTTC_FSTAT_CCIF) &&& FTTC_FSTAT_CCIF = 0) ∧
      (∀ x ∈ vs, x &&& FTTC_FSTAT_CCIF = 0) ∧ v &&& FTTC_FSTAT_CCIF ≠ 0 :=
  execute_launch_protocol [0x00, 0x80, 0x55] 0x55
    [Ev.rd S32K1XX_FTFC_FSTAT 0x00, Ev.wr S32K1XX_FTFC_FSTAT 0x80,
     Ev.rd S32K1XX_FTFC_FSTAT 0x80, Ev.rd S32K1XX_FTFC_FSTAT 0x55] [] (by decide)

/-! Trace-counting lemmas for the chunk loops. -/

theorem countProgramPhrase_rd0 (a v : Nat) (t : List Ev) :
    countProgramPhrase (Ev.rd a v :: t) = countProgramPhrase t := rfl

theorem countProgramPhrase_append (a b : List Ev) :
    countProgramPhrase (a ++ b) = countProgramPhrase a + countProgramPhrase b := by
  induction a with
  | nil => simp [countProgramPhrase]
  | cons e t ih =>
    have hcons : ∀ (l : List Ev), countProgramPhrase (e :: l) =
        countProgramPhrase [e] + countProgramPhrase l := by
      intro l
      cases e with
      | rd x v => simp [countProgramPhrase]
      | wr x v => simp [countProgramPhrase]
    rw [List.cons_append, hcons (t ++ b), hcons t, ih]
    omega

theorem countProgramPhrase_wr_ne {a : Nat} (v : Nat) (t : List Ev)
    (ha : a ≠ S32K1XX_FTFC_FCCOB0) :
    countProgramPhrase (Ev.wr a v :: t) = countProgramPhrase t := by
  simp only [countProgramPhrase]
  rw [if_neg (fun hc => ha hc.1), Nat.zero_add]

theorem countProgramPhrase_wr_phrase (t : List Ev) :
    countProgramPhrase
        (Ev.wr S32K1XX_FTFC_FCCOB0 S32K1XX_FTFC_PROGRAM_PHRASE :: t) =
      countProgramPhrase t + 1 := by
  show (if S32K1XX_FTFC_FCCOB0 = S32K1XX_FTFC_FCCOB0 ∧
      S32K1XX_FTFC_PROGRAM_PHRASE = S32K1XX_FTFC_PROGRAM_PHRASE then 1 else 0) +
      countProgramPhrase t = countProgramPhrase t + 1
  rw [if_pos ⟨rfl, rfl⟩]
  omega

theorem countProgramPhrase_map_wr (js : List Nat) (f g : Nat → Nat)
    (hf : ∀ j ∈ js, f j ≠ S32K1XX_FTFC_FCCOB0) :
    countProgramPhrase (js.map fun j => Ev.wr (f j) (g j)) = 0 := by
  induction js with
  | nil => rfl
  | cons j js ih =>
    rw [List.map_cons, countProgramPhrase_wr_ne _ _ (hf j (List.mem_cons_self j js))]
    exact ih (fun x hx => hf x (List.mem_cons_of_mem j hx))

theorem countProgramPhrase_payload (c : ProgmemCfg) (buf : Nat → Nat)
    (srcOff slot : Nat) (hs : 8 ≤ slot) :
    countProgramPhrase (payload_writes c buf srcOff slot) = 0 := by
  unfold payload_writes
  apply countProgramPhrase_map_wr
  intro j hj
  simp only [S32K1XX_FTFC_FCCOB0, S32K1XX_FTFC_BASE]
  omega

theorem countProgramPhrase_chunk (c : ProgmemCfg) (buf : Nat → Nat)
    (dest srcOff : Nat) (t0 t1 : List Ev)
    (h0 : countProgramPhrase t0 = 0) (h1 : countProgramPhrase t1 = 0) :
    countProgramPhrase (program_chunk_trace c buf dest srcOff t0 t1) = 1 := by
  unfold program_chunk_trace
  rw [countProgramPhrase_append, countProgramPhrase_append, countProgramPhrase_append]
  have hset : countProgramPhrase (fccob_setup S32K1XX_FTFC_PROGRAM_PHRASE dest) = 1 := by
    unfold fccob_setup clearErrsWrite
    rw [countProgramPhrase_wr_ne _ _ (by decide), countProgramPhrase_wr_phrase,
      countProgramPhrase_wr_ne _ _ (by decide), countProgramPhrase_wr_ne _ _ (by decide),
      countProgramPhrase_wr_ne _ _ (by decide)]
    rfl
  rw [h0, h1, countProgramPhrase_payload c buf srcOff 0x8 (by omega), hset]

theorem countProgramPhrase_wait (vs : List Nat) :
    countProgramPhrase (vs.map (Ev.rd S32K1XX_FTFC_FSTAT)) = 0 := by
  induction vs with
  | nil => rfl
  | cons v vs ih => simpa [countProgramPhrase] using ih

/-! Prompt-oracle runs of the chunk loops. -/

theorem promptOracle_append (a b : List Nat) :
    promptOracle (a ++ b) = promptOracle a ++ promptOracle b := by
  induction a with
  | nil => rfl
  | cons x a ih => simp [promptOracle, ih]

theorem ready80 : (0x80 : Nat) &&& FTTC_FSTAT_CCIF ≠ 0 := by decide

theorem program_chunks_step (c : ProgmemCfg) (buf : Nat → Nat) (n dest srcOff : Nat)
    (o : List Nat) :
    program_chunks c buf (n + 1) dest srcOff o =
      match wait_ftfc_ready o with
      | none => none
      | some (t0, o0) =>
        match execute_ftfc_command o0 with
        | none => none
        | some (s, t1, o1) =>
          if s &&& FTFC_ERR_MASK ≠ 0 then
            some (ChunkOut.ioerr (program_chunk_trace c buf dest srcOff t0 t1))
          else
            match program_chunks c buf n ((dest + c.DFLASH_WRITE_UNIT_SIZE) % 2 ^ 32)
                (srcOff + c.DFLASH_WRITE_UNIT_SIZE) o1 with
            | none => none
            | some (ChunkOut.ok tr o2) =>
              some (ChunkOut.ok (program_chunk_trace c buf dest srcOff t0 t1 ++ tr) o2)
            | some (ChunkOut.ioerr tr) =>
              some (ChunkOut.ioerr (program_chunk_trace c buf dest srcOff t0 t1 ++ tr)) :=
  rfl

/-- The executor trace of a promptly completing command with status `x`. -/
def promptExecTrace (x : Nat) : List Ev :=
  [Ev.rd S32K1XX_FTFC_FSTAT 0x80,
   Ev.wr S32K1XX_FTFC_FSTAT (0x80 ||| FTTC_FSTAT_CCIF),
   Ev.rd S32K1XX_FTFC_FSTAT 0x80,
   Ev.rd S32K1XX_FTFC_FSTAT x]

theorem countProgramPhrase_promptExec (x : Nat) :
    countProgramPhrase (promptExecTrace x) = 0 := by
  unfold promptExecTrace
  rw [countProgramPhrase_rd0, countProgramPhrase_wr_ne _ _ (by decide)]
  rfl

theorem program_chunks_abort (c : ProgmemCfg) (buf : Nat → Nat) :
    ∀ (pre : List Nat) (s m : Nat) (rest : List Nat) (dest srcOff : Nat),
      (∀ x ∈ pre, x &&& FTFC_ERR_MASK = 0) → s &&& FTFC_ERR_MASK ≠ 0 →
      ∃ tr, program_chunks c buf (pre.length + m + 1) dest srcOff
          (promptOracle (pre ++ [s]) ++ rest) = some (ChunkOut.ioerr tr) ∧
        countProgramPhrase tr = pre.length + 1 := by
  intro pre
  induction pre with
  | nil =>
    intro s m rest dest srcOff hpre hs
    simp only [List.length_nil, Nat.zero_add, List.nil_append]
    refine ⟨program_chunk_trace c buf dest srcOff
      [Ev.rd S32K1XX_FTFC_FSTAT 0x80] (promptExecTrace s), ?_, ?_⟩
    · rw [program_chunks_step]
      simp only [promptOracle, List.cons_append, List.nil_append, List.append_eq,
        wait_ready_cons _ ready80, execute_prompt 0x80 s _ ready80]
      rw [if_pos hs]
      rfl
    · rw [countProgramPhrase_chunk c buf dest srcOff
        [Ev.rd S32K1XX_FTFC_FSTAT 0x80] (promptExecTrace s) rfl
        (countProgramPhrase_promptExec s)]
  | cons x pre ih =>
    intro s m rest dest srcOff hpre hs
    have hx : x &&& FTFC_ERR_MASK = 0 := hpre x (List.mem_cons_self x pre)
    obtain ⟨tr, hrun, hcnt⟩ := ih s m rest ((dest + c.DFLASH_WRITE_UNIT_SIZE) % 2 ^ 32)
      (srcOff + c.DFLASH_WRITE_UNIT_SIZE)
      (fun y hy => hpre y (List.mem_cons_of_mem x hy)) hs
    refine ⟨program_chunk_trace c buf dest srcOff
      [Ev.rd S32K1XX_FTFC_FSTAT 0x80] (promptExecTrace x) ++ tr, ?_, ?_⟩
    · rw [show (x :: pre).length + m + 1 = (pre.length + m + 1) + 1 by
          simp only [List.length_cons]; omega,
        program_chunks_step]
      simp only [promptOracle, List.cons_append, List.append_eq,
        wait_ready_cons _ ready80, execute_prompt 0x80 x _ ready80]
      rw [if_neg (by rw [hx]; exact fun hc => hc rfl), hrun]
      rfl
    · rw [countProgramPhrase_append, hcnt,
        countProgramPhrase_chunk c buf dest srcOff
          [Ev.rd S32K1XX_FTFC_FSTAT 0x80] (promptExecTrace x) rfl
          (countProgramPhrase_promptExec x)]
      simp only [List.length_cons]
      omega

theorem program_chunks_clean (c : ProgmemCfg) (buf : Nat → Nat) :
    ∀ (ps : List Nat) (rest : List Nat) (dest srcOff : Nat),
      (∀ x ∈ ps, x &&& FTFC_ERR_MASK = 0) →
      ∃ tr, program_chunks c buf ps.length dest srcOff (promptOracle ps ++ rest) =
        some (ChunkOut.ok tr rest) := by
  intro ps
  induction ps with
  | nil =>
    intro rest dest srcOff hps
    exact ⟨[], rfl⟩
  | cons x ps ih =>
    intro rest dest srcOff hps
    have hx : x &&& FTFC_ERR_MASK = 0 := hps x (List.mem_cons_self x ps)
    obtain ⟨tr, hrun⟩ := ih rest ((dest + c.DFLASH_WRITE_UNIT_SIZE) % 2 ^ 32)
      (srcOff + c.DFLASH_WRITE_UNIT_SIZE)
      (fun y hy => hps y (List.mem_cons_of_mem x hy))
    refine ⟨program_chunk_trace c buf dest srcOff
      [Ev.rd S32K1XX_FTFC_FSTAT 0x80] (promptExecTrace x) ++ tr, ?_⟩
    rw [show (x :: ps).length = ps.length + 1 from rfl, program_chunks_step]
    simp only [promptOracle, List.cons_append, List.append_eq,
      wait_ready_cons _ ready80, execute_prompt 0x80 x _ ready80]
    rw [if_neg (by rw [hx]; exact fun hc => hc rfl), hrun]
    rfl

/-- C5: in a multi-chunk `up_progmem_write`, a chunk whose program command
completes with the protection-violation bit set makes the call return `-EIO`
at that point: the trace holds exactly one program-phrase dispatch per chunk
up to and including the failing one and none for any later chunk, although
the oracle would let the later chunks complete. -/
theorem write_fpviol_aborts (c : ProgmemCfg) (buf : Nat → Nat) (addr : Nat)
    (pre : List Nat) (s m : Nat) (rest : List Nat)
    (hU : 0 < c.DFLASH_WRITE_UNIT_SIZE)
    (hpre : ∀ x ∈ pre, x &&& FTFC_ERR_MASK = 0)
    (hs : s &&& FTTC_FSTAT_FPVIOL ≠ 0) :
    ∃ tr, up_progmem_write c false addr buf
        ((pre.length + m + 1) * c.DFLASH_WRITE_UNIT_SIZE)
        (promptOracle (pre ++ [s]) ++ rest) = some (-EIOERR, tr) ∧
      countProgramPhrase tr = pre.length + 1 := by
  obtain ⟨tr, hrun, hcnt⟩ := program_chunks_abort c buf pre s m rest
    (((if c.START_ADDR ≤ addr then addr - c.START_ADDR else addr) + 0x800000) % 2 ^ 32) 0
    hpre (err_mask_of_fpviol hs)
  refine ⟨tr, ?_, hcnt⟩
  unfold up_progmem_write write_body
  rw [if_neg (fun hne => hne (Nat.mul_mod_left _ _)), Nat.mul_div_left _ hU, hrun]

/-- C5 witness: two requested chunks; the first completes cleanly, the second
reports a protection violation (status 0x10), the write returns `-EIO` having
dispatched exactly two program-phrase commands. -/
theorem write_fpviol_aborts_witness :
    ((0 : Nat) < cfgS.DFLASH_WRITE_UNIT_SIZE ∧
      (∀ x ∈ ([0x80] : List Nat), x &&& FTFC_ERR_MASK = 0) ∧
      (0x10 : Nat) &&& FTTC_FSTAT_FPVIOL ≠ 0) ∧
    ∃ tr, up_progmem_write cfgS false 0 (fun _ => 0xab)
        ((([0x80] : List Nat).length + 0 + 1) * cfgS.DFLASH_WRITE_UNIT_SIZE)
        (promptOracle (([0x80] : List Nat) ++ [0x10]) ++ []) = some (-EIOERR, tr) ∧
      countProgramPhrase tr = ([0x80] : List Nat).length + 1 :=
  ⟨⟨by decide, by decide, by decide⟩,
   write_fpviol_aborts cfgS (fun _ => 0xab) 0 [0x80] 0x10 0 []
     (by decide) (by decide) (by decide)⟩

theorem verify_chunks_step (c : ProgmemCfg) (buf : Nat → Nat) (n dest srcOff : Nat)
    (o : List Nat) :
    verify_chunks c buf (n + 1) dest srcOff o =
      match wait_ftfc_ready o with
      | none => none
      | some (t0, o0) =>
        match execute_ftfc_command o0 with
        | none => none
        | some (s, t1, o1) =>
          if s &&& FTFC_ERR_MASK ≠ 0 then
            some (VerifyOut.bail (verify_chunk_trace c buf dest srcOff t0 t1))
          else
            match verify_chunks c buf n ((dest + c.DFLASH_WRITE_UNIT_SIZE) % 2 ^ 32)
                (srcOff + c.DFLASH_WRITE_UNIT_SIZE) o1 with
            | none => none
            | some (VerifyOut.done tr o2) =>
              some (VerifyOut.done (verify_chunk_trace c buf dest srcOff t0 t1 ++ tr) o2)
            | some (VerifyOut.bail tr) =>
              some (VerifyOut.bail (verify_chunk_trace c buf dest srcOff t0 t1 ++ tr)) :=
  rfl

theorem verify_chunks_bail (c : ProgmemCfg) (buf : Nat → Nat) :
    ∀ (vpre : List Nat) (s m : Nat) (rest : List Nat) (dest srcOff : Nat),
      (∀ x ∈ vpre, x &&& FTFC_ERR_MASK = 0) → s &&& FTFC_ERR_MASK ≠ 0 →
      ∃ tr, verify_chunks c buf (vpre.length + m + 1) dest srcOff
          (promptOracle (vpre ++ [s]) ++ rest) = some (VerifyOut.bail tr) := by
  intro vpre
  induction vpre with
  | nil =>
    intro s m rest dest srcOff hvpre hs
    simp only [List.length_nil, Nat.zero_add, List.nil_append]
    refine ⟨verify_chunk_trace c buf dest srcOff
      [Ev.rd S32K1XX_FTFC_FSTAT 0x80] (promptExecTrace s), ?_⟩
    rw [verify_chunks_step]
    simp only [promptOracle, List.cons_append, List.nil_append, List.append_eq,
      wait_ready_cons _ ready80, execute_prompt 0x80 s _ ready80]
    rw [if_pos hs]
    rfl
  | cons x vpre ih =>
    intro s m rest dest srcOff hvpre hs
    have hx : x &&& FTFC_ERR_MASK = 0 := hvpre x (List.mem_cons_self x vpre)
    obtain ⟨tr, hrun⟩ := ih s m rest ((dest + c.DFLASH_WRITE_UNIT_SIZE) % 2 ^ 32)
      (srcOff + c.DFLASH_WRITE_UNIT_SIZE)
      (fun y hy => hvpre y (List.mem_cons_of_mem x hy)) hs
    refine ⟨verify_chunk_trace c buf dest srcOff
      [Ev.rd S32K1XX_FTFC_FSTAT 0x80] (promptExecTrace x) ++ tr, ?_⟩
    rw [show (x :: vpre).length + m + 1 = (vpre.length + m + 1) + 1 by
        simp only [List.length_cons]; omega,
      verify_chunks_step]
    simp only [promptOracle, List.cons_append, List.append_eq,
      wait_ready_cons _ ready80, execute_prompt 0x80 x _ ready80]
    rw [if_neg (by rw [hx]; exact fun hc => hc rfl), hrun]
    rfl

/-- C4: with the verify phase enabled, a chunk whose program-check command
reports an error status makes `up_progmem_write` return the full requested
count — exactly as on success — instead of an error. -/
theorem write_verify_failure_returns_count (c : ProgmemCfg) (buf : Nat → Nat)
    (addr : Nat) (ps vpre : List Nat) (s m : Nat) (rest : List Nat)
    (hU : 0 < c.DFLASH_WRITE_UNIT_SIZE)
    (hps : ∀ x ∈ ps, x &&& FTFC_ERR_MASK = 0)
    (hvpre : ∀ x ∈ vpre, x &&& FTFC_ERR_MASK = 0)
    (hs : s &&& FTFC_ERR_MASK ≠ 0)
    (hlen : ps.length = vpre.length + m + 1) :
    ∃ tr, up_progmem_write c true addr buf (ps.length * c.DFLASH_WRITE_UNIT_SIZE)
        (promptOracle (ps ++ (vpre ++ [s])) ++ rest) =
      some (((ps.length * c.DFLASH_WRITE_UNIT_SIZE : Nat) : Int), tr) := by
  obtain ⟨tr1, hrun1⟩ := program_chunks_clean c buf ps
    (promptOracle (vpre ++ [s]) ++ rest)
    (((if c.START_ADDR ≤ addr then addr - c.START_ADDR else addr) + 0x800000) % 2 ^ 32) 0
    hps
  obtain ⟨tr2, hrun2⟩ := verify_chunks_bail c buf vpre s m rest
    (((if c.START_ADDR ≤ addr then addr - c.START_ADDR else addr) + 0x800000) % 2 ^ 32) 0
    hvpre hs
  refine ⟨tr1 ++ tr2, ?_⟩
  unfold up_progmem_write write_body
  rw [if_neg (fun hne => hne (Nat.mul_mod_left _ _)), Nat.mul_div_left _ hU,
    promptOracle_append, List.append_assoc]
  simp only [hrun1, if_true]
  rw [hlen]
  simp only [hrun2]

/-- C4 witness: one programmed chunk, whose verify command then reports an
error (status 0x10); the write still returns the full count 8. -/
theorem write_verify_failure_returns_count_witness :
    ((0 : Nat) < cfgS.DFLASH_WRITE_UNIT_SIZE ∧
      (∀ x ∈ ([0x80] : List Nat), x &&& FTFC_ERR_MASK = 0) ∧
      (0x10 : Nat) &&& FTFC_ERR_MASK ≠ 0 ∧
      ([0x80] : List Nat).length = ([] : List Nat).length + 0 + 1) ∧
    ∃ tr, up_progmem_write cfgS true 0 (fun _ => 0xab)
        (([0x80] : List Nat).length * cfgS.DFLASH_WRITE_UNIT_SIZE)
        (promptOracle (([0x80] : List Nat) ++ (([] : List Nat) ++ [0x10])) ++ []) =
      some (((([0x80] : List Nat).length * cfgS.DFLASH_WRITE_UNIT_SIZE : Nat) : Int), tr) :=
  ⟨⟨by decide, by decide, by decide, by decide⟩,
   write_verify_failure_returns_count cfgS (fun _ => 0xab) 0 [0x80] [] 0x10 0 []
     (by decide) (by decide) (by decide) (by decide) (by decide)⟩

/-! Lemmas on the erased-page scan. -/

theorem first_not_erased_all (mem : Nat → Nat) (base : Nat) :
    ∀ n i, (∀ j, j < n → mem (base + (i + j)) = 0xff) →
      first_not_erased mem base n i = i + n := by
  intro n
  induction n with
  | zero => intro i h; rfl
  | succ n ih =>
    intro i h
    unfold first_not_erased
    rw [if_neg (not_not_intro (by simpa using h 0 (Nat.succ_pos n)))]
    have hrec : first_not_erased mem base n (i + 1) = (i + 1) + n := by
      apply ih
      intro j hj
      have hh := h (j + 1) (by omega)
      rwa [show i + (j + 1) = i + 1 + j by omega] at hh
    rw [hrec]
    omega

theorem first_not_erased_found (mem : Nat → Nat) (base : Nat) :
    ∀ n i k, k < n → mem (base + (i + k)) ≠ 0xff →
      (∀ j, j < k → mem (base + (i + j)) = 0xff) →
      first_not_erased mem base n i = i + k := by
  intro n
  induction n with
  | zero => intro i k hk; exact absurd hk (Nat.not_lt_zero k)
  | succ n ih =>
    intro i k hk hne hall
    unfold first_not_erased
    cases k with
    | zero =>
      rw [if_pos (by simpa using hne)]
      omega
    | succ k =>
      rw [if_neg (not_not_intro (by simpa using hall 0 (Nat.succ_pos k)))]
      have hrec : first_not_erased mem base n (i + 1) = (i + 1) + k := by
        apply ih (i + 1) k (by omega)
        · rwa [show i + 1 + k = i + (k + 1) by omega]
        · intro j hj
          have hh := hall (j + 1) (by omega)
          rwa [show i + (j + 1) = i + 1 + j by omega] at hh
      rw [hrec]
      omega

theorem first_not_erased_le (mem : Nat → Nat) (base : Nat) :
    ∀ n i, first_not_erased mem base n i ≤ i + n := by
  intro n
  induction n with
  | zero => intro i; exact Nat.le_refl i
  | succ n ih =>
    intro i
    unfold first_not_erased
    by_cases hb : mem (base + i) ≠ 0xff
    · rw [if_pos hb]; omega
    · rw [if_neg hb]
      have := ih (i + 1)
      omega

/-- C8 (amended): for a valid page index, the scan result is zero exactly
when every byte of the page reads as the erased sentinel, and when a first
non-erased byte exists at offset `k` the result is `page_size - k`, the
count of bytes from that byte to the end of the page (not the offset `k`
itself). -/
theorem ispageerased_scan (c : ProgmemCfg) (mem : Nat → Nat) (page : Nat)
    (hp : page < c.PAGE_COUNT) :
    (up_progmem_ispageerased c mem page = 0 ↔
      ∀ j, j < c.PAGE_SIZE → mem (up_progmem_getaddress c page + j) = 0xff) ∧
    (∀ k, k < c.PAGE_SIZE → mem (up_progmem_getaddress c page + k) ≠ 0xff →
      (∀ j, j < k → mem (up_progmem_getaddress c page + j) = 0xff) →
      up_progmem_ispageerased c mem page = (c.PAGE_SIZE : Int) - (k : Int)) := by
  have hnot : ¬ c.PAGE_COUNT ≤ page := Nat.not_le.mpr hp
  constructor
  · constructor
    · intro h0
      by_contra hnall
      push_neg at hnall
      obtain ⟨j0, hj0, hj0ne⟩ := hnall
      have hex : ∃ j, j < c.PAGE_SIZE ∧
          mem (up_progmem_getaddress c page + j) ≠ 0xff := ⟨j0, hj0, hj0ne⟩
      have hkspec := Nat.find_spec hex
      have hkmin := fun j (hj : j < Nat.find hex) => Nat.find_min hex hj
      have hfound : first_not_erased mem (up_progmem_getaddress c page)
          c.PAGE_SIZE 0 = 0 + Nat.find hex := by
        apply first_not_erased_found mem _ c.PAGE_SIZE 0 (Nat.find hex) hkspec.1
          (by simpa using hkspec.2)
        intro j hj
        have hmj := hkmin j hj
        rw [Nat.zero_add]
        by_contra hne2
        exact hmj ⟨Nat.lt_trans hj hkspec.1, hne2⟩
      unfold up_progmem_ispageerased at h0
      rw [if_neg hnot, hfound] at h0
      have := hkspec.1
      omega
    · intro hall
      have hfull : first_not_erased mem (up_progmem_getaddress c page)
          c.PAGE_SIZE 0 = 0 + c.PAGE_SIZE :=
        first_not_erased_all mem _ c.PAGE_SIZE 0 (fun j hj => by simpa using hall j hj)
      unfold up_progmem_ispageerased
      rw [if_neg hnot, hfull]
      omega
  · intro k hk hkne hkall
    have hfound : first_not_erased mem (up_progmem_getaddress c page)
        c.PAGE_SIZE 0 = 0 + k :=
      first_not_erased_found mem _ c.PAGE_SIZE 0 k hk (by simpa using hkne)
        (fun j hj => by simpa using hkall j hj)
    unfold up_progmem_ispageerased
    rw [if_neg hnot, hfound]
    omega

/-- A memory whose bytes up to address 0x10000000 hold the erased sentinel
and whose later bytes hold 0x00, so page 0 of `cfgS` has its first non-erased
byte at offset 1. -/
def memOneByte : Nat → Nat := fun a => if a ≤ 0x10000000 then 0xff else 0x00

/-- C8 (amended) witness: a page whose bytes are all erased except one. -/
theorem ispageerased_scan_witness :
    0 < cfgS.PAGE_COUNT ∧
    ((up_progmem_ispageerased cfgS memOneByte 0 = 0 ↔
      ∀ j, j < cfgS.PAGE_SIZE → memOneByte (up_progmem_getaddress cfgS 0 + j) = 0xff) ∧
    (∀ k, k < cfgS.PAGE_SIZE → memOneByte (up_progmem_getaddress cfgS 0 + k) ≠ 0xff →
      (∀ j, j < k → memOneByte (up_progmem_getaddress cfgS 0 + j) = 0xff) →
      up_progmem_ispageerased cfgS memOneByte 0 = (cfgS.PAGE_SIZE : Int) - (k : Int))) :=
  ⟨by decide, ispageerased_scan cfgS memOneByte 0 (by decide)⟩

/-- C8 counterexample: with `memOneByte` the first non-erased byte of page 0
sits at offset 1, yet the operation returns 2047 = `page_size - 1`, not the
offset 1 the claim names. -/
theorem ispageerased_offset_counterexample :
    up_progmem_ispageerased cfgS memOneByte 0 = 2047 ∧
    memOneByte (up_progmem_getaddress cfgS 0 + 1) ≠ 0xff ∧
    (∀ j, j < 1 → memOneByte (up_progmem_getaddress cfgS 0 + j) = 0xff) ∧
    (2047 : Int) ≠ 1 := by
  have hbase : up_progmem_getaddress cfgS 0 = 0x10000000 := by decide
  have hfound : first_not_erased memOneByte 0x10000000 cfgS.PAGE_SIZE 0 = 0 + 1 := by
    apply first_not_erased_found memOneByte 0x10000000 cfgS.PAGE_SIZE 0 1
      (by decide) (by decide)
    intro j hj
    have hj0 : j = 0 := by omega
    rw [hj0]
    decide
  refine ⟨?_, by rw [hbase]; decide, ?_, by decide⟩
  · unfold up_progmem_ispageerased
    rw [if_neg (by decide), hbase, hfound]
    decide
  · intro j hj
    have hj0 : j = 0 := by omega
    rw [hj0, hbase]
    decide

/-! Address congruence: the command register block receives only the low
three address bytes, so destinations equal mod 2^24 drive identical
hardware interactions. -/

theorem fccob_setup_congr (op : Nat) {d1 d2 : Nat} (h : d1 % 2 ^ 24 = d2 % 2 ^ 24) :
    fccob_setup op d1 = fccob_setup op d2 := by
  unfold fccob_setup fccob1_of fccob2_of fccob3_of
  have h1 : d1 / 2 ^ 16 % 2 ^ 8 = d2 / 2 ^ 16 % 2 ^ 8 := by omega
  have h2 : d1 / 2 ^ 8 % 2 ^ 8 = d2 / 2 ^ 8 % 2 ^ 8 := by omega
  have h3 : d1 % 2 ^ 8 = d2 % 2 ^ 8 := by omega
  rw [h1, h2, h3]

theorem dest_advance_congr {d1 d2 : Nat} (u : Nat) (h : d1 % 2 ^ 24 = d2 % 2 ^ 24) :
    (d1 + u) % 2 ^ 32 % 2 ^ 24 = (d2 + u) % 2 ^ 32 % 2 ^ 24 := by
  rw [Nat.mod_mod_of_dvd _ (pow_dvd_pow 2 (by norm_num)),
    Nat.mod_mod_of_dvd _ (pow_dvd_pow 2 (by norm_num))]
  omega

theorem program_chunks_congr (c : ProgmemCfg) (buf : Nat → Nat) :
    ∀ (n d1 d2 srcOff : Nat) (o : List Nat), d1 % 2 ^ 24 = d2 % 2 ^ 24 →
      program_chunks c buf n d1 srcOff o = program_chunks c buf n d2 srcOff o := by
  intro n
  induction n with
  | zero => intro d1 d2 srcOff o h; rfl
  | succ n ih =>
    intro d1 d2 srcOff o h
    rw [program_chunks_step, program_chunks_step]
    cases wait_ftfc_ready o with
    | none => rfl
    | some p =>
      obtain ⟨t0, o0⟩ := p
      dsimp only
      cases execute_ftfc_command o0 with
      | none => rfl
      | some q =>
        obtain ⟨s, q2⟩ := q
        obtain ⟨t1, o1⟩ := q2
        dsimp only
        have htrace : program_chunk_trace c buf d1 srcOff t0 t1 =
            program_chunk_trace c buf d2 srcOff t0 t1 := by
          unfold program_chunk_trace
          rw [fccob_setup_congr _ h]
        rw [htrace,
          ih ((d1 + c.DFLASH_WRITE_UNIT_SIZE) % 2 ^ 32)
            ((d2 + c.DFLASH_WRITE_UNIT_SIZE) % 2 ^ 32)
            (srcOff + c.DFLASH_WRITE_UNIT_SIZE) o1
            (dest_advance_congr c.DFLASH_WRITE_UNIT_SIZE h)]

theorem verify_chunks_congr (c : ProgmemCfg) (buf : Nat → Nat) :
    ∀ (n d1 d2 srcOff : Nat) (o : List Nat), d1 % 2 ^ 24 = d2 % 2 ^ 24 →
      verify_chunks c buf n d1 srcOff o = verify_chunks c buf n d2 srcOff o := by
  intro n
  induction n with
  | zero => intro d1 d2 srcOff o h; rfl
  | succ n ih =>
    intro d1 d2 srcOff o h
    rw [verify_chunks_step, verify_chunks_step]
    cases wait_ftfc_ready o with
    | none => rfl
    | some p =>
      obtain ⟨t0, o0⟩ := p
      dsimp only
      cases execute_ftfc_command o0 with
      | none => rfl
      | some q =>
        obtain ⟨s, q2⟩ := q
        obtain ⟨t1, o1⟩ := q2
        dsimp only
        have htrace : verify_chunk_trace c buf d1 srcOff t0 t1 =
            verify_chunk_trace c buf d2 srcOff t0 t1 := by
          unfold verify_chunk_trace
          rw [fccob_setup_congr _ h]
        rw [htrace,
          ih ((d1 + c.DFLASH_WRITE_UNIT_SIZE) % 2 ^ 32)
            ((d2 + c.DFLASH_WRITE_UNIT_SIZE) % 2 ^ 32)
            (srcOff + c.DFLASH_WRITE_UNIT_SIZE) o1
            (dest_advance_congr c.DFLASH_WRITE_UNIT_SIZE h)]

theorem write_body_congr (c : ProgmemCfg) (verify : Bool) (buf : Nat → Nat)
    (count : Nat) (o : List Nat) {r1 r2 : Nat} (h : r1 % 2 ^ 24 = r2 % 2 ^ 24) :
    write_body c verify r1 buf count o = write_body c verify r2 buf count o := by
  unfold write_body
  by_cases hc : count % c.DFLASH_WRITE_UNIT_SIZE ≠ 0
  · rw [if_pos hc, if_pos hc]
  · rw [if_neg hc, if_neg hc]
    have hd : (r1 + 0x800000) % 2 ^ 32 % 2 ^ 24 = (r2 + 0x800000) % 2 ^ 32 % 2 ^ 24 :=
      dest_advance_congr 0x800000 h
    rw [program_chunks_congr c buf (count / c.DFLASH_WRITE_UNIT_SIZE) _ _ 0 o hd]
    cases program_chunks c buf (count / c.DFLASH_WRITE_UNIT_SIZE)
        ((r2 + 0x800000) % 2 ^ 32) 0 o with
    | none => rfl
    | some out =>
      cases out with
      | ioerr tr => rfl
      | ok tr o1 =>
        dsimp only
        cases verify with
        | false =>
          rw [if_neg (fun hb => Bool.false_ne_true hb),
            if_neg (fun hb => Bool.false_ne_true hb)]
        | true =>
          rw [if_pos rfl, if_pos rfl,
            verify_chunks_congr c buf (count / c.DFLASH_WRITE_UNIT_SIZE) _ _ 0 o1 hd]

/-- C9: `up_progmem_write` accepts its target as absolute or base-relative:
for every address at or above the flash base, the call behaves — hardware
trace and result alike — exactly as the call on the base-relative offset.
The base-alignment hypothesis (`START_ADDR` a multiple of 2^24, true of the
actual base 0x10000000) makes the extra base subtraction on an already
base-relative offset invisible in the three address bytes the controller
receives. -/
theorem write_absolute_relative_equiv (c : ProgmemCfg) (verify : Bool)
    (addr : Nat) (buf : Nat → Nat) (count : Nat) (o : List Nat)
    (halign : c.START_ADDR % 2 ^ 24 = 0) (h : c.START_ADDR ≤ addr) :
    up_progmem_write c verify addr buf count o =
      up_progmem_write c verify (addr - c.START_ADDR) buf count o := by
  unfold up_progmem_write
  rw [if_pos h]
  by_cases h2 : c.START_ADDR ≤ addr - c.START_ADDR
  · rw [if_pos h2]
    exact write_body_congr c verify buf count o (by omega)
  · rw [if_neg h2]

/-- C9 witness: the absolute address 0x10000800 (page 1 of the data flash)
behaves like the relative offset 0x800 on a one-chunk write. -/
theorem write_absolute_relative_equiv_witness :
    (cfgS.START_ADDR % 2 ^ 24 = 0 ∧ cfgS.START_ADDR ≤ 0x10000800) ∧
    up_progmem_write cfgS false 0x10000800 (fun _ => 0x5a) 8 (promptOracle [0x80]) =
      up_progmem_write cfgS false (0x10000800 - cfgS.START_ADDR) (fun _ => 0x5a) 8
        (promptOracle [0x80]) :=
  ⟨⟨by decide, by decide⟩,
   write_absolute_relative_equiv cfgS false 0x10000800 (fun _ => 0x5a) 8
     (promptOracle [0x80]) (by decide) (by decide)⟩

end Progmem
